import Mathlib

/-!
Shallow embedding of the `iso8601` Go package (rickb777/iso8601):
the zone parser `ParseISOZone`, the date-time scanner `Parse`, the
range validation that follows it, and the JSON/text codec of `Time`.

Byte strings are modelled as `List Nat` (each entry one byte).
Go `int` values are modelled as `Nat` where the source only ever adds
and multiplies non-negative quantities (digit accumulators, field
values); signed zone offsets are modelled as `Int`.  Machine overflow
is not modelled: none of the properties considered here involve inputs
long enough to overflow a 64-bit accumulator.
-/

deriving instance DecidableEq for Except

namespace Iso8601

/-- Convert a Lean string literal to the byte list it denotes (all
inputs used in this development are ASCII, so code points and bytes
coincide). -/
def bytes (s : String) : List Nat :=
  s.toList.map Char.toNat

/-- Errors produced by the package, a tagged union standing for the
distinct Go error values and structured error types in `error.go`:
`UnexpectedCharacterError`, `ErrZoneTooShort`, `ErrZoneTooLong`,
`ErrInvalidZone` (the `SyntaxError`/`errors.New` values used for zones),
`ErrRemainingData`, `ErrPrecision`, `ErrNotString` and `RangeError`.
A `RangeError` carries the complete original input (`value`), the
element name, the offending value and the inclusive bounds, exactly as
the Go struct does. -/
inductive Err where
  | unexpectedChar (c : Nat)
  | zoneTooShort
  | zoneTooLong
  | invalidZone
  | remainingData
  | precision
  | notString
  | range (value : List Nat) (element : String) (given mn mx : Nat)
  deriving DecidableEq, Repr

/-- A `*time.Location` as the package uses it: only fixed zones ever
arise (`time.UTC` or `time.FixedZone(name, offset)`), so a location is
a display name together with a signed offset in seconds east of UTC. -/
structure Loc where
  name : List Nat
  offset : Int
  deriving DecidableEq, Repr

/-- The `time.UTC` location. -/
def UTC : Loc := ⟨bytes "UTC", 0⟩

/-- Go `utf8.DecodeRune`: decode the first rune of a byte list,
returning the code point and the number of bytes consumed.  An empty
input yields `(RuneError, 0)`; an invalid encoding yields
`(RuneError, 1)`.  `RuneError` is U+FFFD = 65533. -/
def decodeRune (l : List Nat) : Nat × Nat :=
  match l with
  | [] => (65533, 0)
  | b0 :: rest =>
    if b0 < 128 then (b0, 1)
    else if b0 < 194 then (65533, 1)
    else if b0 < 224 then
      match rest with
      | b1 :: _ =>
        if 128 ≤ b1 ∧ b1 ≤ 191 then ((b0 - 192) * 64 + (b1 - 128), 2)
        else (65533, 1)
      | [] => (65533, 1)
    else if b0 < 240 then
      match rest with
      | b1 :: b2 :: _ =>
        let lo1 := if b0 = 224 then 160 else 128
        let hi1 := if b0 = 237 then 159 else 191
        if lo1 ≤ b1 ∧ b1 ≤ hi1 ∧ 128 ≤ b2 ∧ b2 ≤ 191 then
          ((b0 - 224) * 4096 + (b1 - 128) * 64 + (b2 - 128), 3)
        else (65533, 1)
      | _ => (65533, 1)
    else if b0 ≤ 244 then
      match rest with
      | b1 :: b2 :: b3 :: _ =>
        let lo1 := if b0 = 240 then 144 else 128
        let hi1 := if b0 = 244 then 143 else 191
        if lo1 ≤ b1 ∧ b1 ≤ hi1 ∧ 128 ≤ b2 ∧ b2 ≤ 191 ∧ 128 ≤ b3 ∧ b3 ≤ 191 then
          ((b0 - 240) * 262144 + (b1 - 128) * 4096 + (b2 - 128) * 64 + (b3 - 128), 4)
        else (65533, 1)
      | _ => (65533, 1)
    else (65533, 1)

/-- Recognizer for the ASCII digit cases `'0' ... '9'` of the Go
switch statements. -/
def isDigitB (b : Nat) : Bool :=
  48 ≤ b && b ≤ 57

/-- The digit/colon scanning loop of `ParseISOZone` (iso8601.go lines
68–94), transcribed byte for byte.  `num` is the part of the input
after the sign, `i` the current index, and `z`, `digits`, `mult`,
`offset` the loop variables (`mult` is `multiplier`, starting at 3600
and divided by 60 at each group boundary).  On normal loop exit it
returns the final values of `(z, digits, mult, offset)`; the caller
performs the final `offset += z * multiplier` exactly as the Go code
does after its loop. -/
def zoneLoop (num : List Nat) (i z digits mult offset : Nat) :
    Except Err (Nat × Nat × Nat × Nat) :=
  match num with
  | [] => .ok (z, digits, mult, offset)
  | b :: rest =>
    if digits > 2 then
      .error .zoneTooLong
    else
      -- next multiplier at i == 2 or i == 5, otherwise next digit
      let st :=
        if i = 2 ∨ i = 5 then (0, 0, mult / 60, offset + z * mult)
        else (z * 10, digits, mult, offset)
      match st with
      | (z, digits, mult, offset) =>
        if isDigitB b then
          zoneLoop rest (i + 1) (z + (b - 48)) (digits + 1) mult offset
        else if b = 58 then
          if i ≠ 2 ∧ i ≠ 5 then .error (.unexpectedChar b)
          else zoneLoop rest (i + 1) z 0 mult offset
        else .error (.unexpectedChar b)

/-- Go `ParseISOZone` (iso8601.go lines 44–111): parse the zone part of
an ISO8601 date string (`Z`, or a sign followed by 2-digit groups of
hours, minutes and seconds, optionally colon-separated).  The leading
character may be `+` (43), `-` (45) or the Unicode minus U+2212; the
label of a fixed zone is the raw input. -/
def ParseISOZone (inp : List Nat) : Except Err Loc :=
  let ri := decodeRune inp
  if ri.1 = 90 then .ok UTC
  else if ri.1 = 43 ∨ ri.1 = 45 ∨ ri.1 = 8722 then
    let neg : Bool := ri.1 = 45 ∨ ri.1 = 8722
    if inp.length < 3 then .error .zoneTooShort
    else
      match zoneLoop (inp.drop ri.2) 0 0 0 3600 0 with
      | .error e => .error e
      | .ok (z, digits, mult, offset) =>
        let offset := offset + z * mult
        if digits ≠ 2 then .error .invalidZone
        else
          let signed : Int := if neg then -(offset : Int) else (offset : Int)
          if neg ∧ signed = 0 then .error .invalidZone
          else .ok ⟨inp, signed⟩
  else if ri.1 = 65533 then .error (.unexpectedChar 63)
  else .error (.unexpectedChar ri.1)

example : ParseISOZone (bytes "Z") = .ok UTC := by decide
example : ParseISOZone (bytes "+00:00") = .ok ⟨bytes "+00:00", 0⟩ := by decide
example : ParseISOZone (bytes "+05:01:01") = .ok ⟨bytes "+05:01:01", 5 * 3600 + 61⟩ := by decide
example : ParseISOZone (bytes "-01:00") = .ok ⟨bytes "-01:00", -3600⟩ := by decide
example : ParseISOZone ([226, 136, 146] ++ bytes "01:00") = .ok ⟨[226, 136, 146] ++ bytes "01:00", -3600⟩ := by decide
example : ParseISOZone (bytes "+0100") = .ok ⟨bytes "+0100", 3600⟩ := by decide
example : ParseISOZone (bytes "-0030") = .ok ⟨bytes "-0030", -1800⟩ := by decide
example : ParseISOZone (bytes "+0") = .error .zoneTooShort := by decide
example : ParseISOZone (bytes "1") = .error (.unexpectedChar 49) := by decide
example : ParseISOZone (bytes "+12345678") = .error .zoneTooLong := by decide
example : ParseISOZone (bytes "-0000") = .error .invalidZone := by decide
example : ParseISOZone (bytes "-0:10") = .error (.unexpectedChar 58) := by decide
example : ParseISOZone (bytes "-01:0") = .error .invalidZone := by decide
example : ParseISOZone (bytes "-foo") = .error (.unexpectedChar 102) := by decide
example : ParseISOZone [170, 187] = .error (.unexpectedChar 63) := by decide

/-! ## The date-time scanner (`Parse`, iso8601.go lines 115–299) -/

/-- The scan state of `Parse`: the field accumulators `Y M d h m s`
and `fraction`, the fraction digit counter `nfraction` (initial 1),
the location `loc` (initially `time.UTC`), the digit accumulator `c`
and the cursor `p` (the Go constants `year, month, day, hour, minute,
second, millisecond` are 0, 1, 2, 3, 4, 5, 6). -/
structure ScanState where
  Y : Nat
  M : Nat
  d : Nat
  h : Nat
  m : Nat
  s : Nat
  fraction : Nat
  nfraction : Nat
  loc : Loc
  c : Nat
  p : Nat
  deriving DecidableEq, Repr

/-- The initial scan state of `Parse`. -/
def initState : ScanState :=
  { Y := 0, M := 0, d := 0, h := 0, m := 0, s := 0,
    fraction := 0, nfraction := 1, loc := UTC, c := 0, p := 0 }

/-- The labelled `parse:` loop of `Parse` (iso8601.go lines 135–227),
transcribed case by case.  Byte codes: `-` 45, `+` 43, `T` 84, `:` 58,
`.` 46, `Z` 90.  The zone cases hand the remaining input (from the sign
onward) to `ParseISOZone` and, on success, stop the scan (`break
parse`); the `Z` case demands that it is the final byte of the input.
The `:` case at `p = second` stores the accumulator into `m`, exactly
as the Go code does (line 194). -/
def scanGo (inp : List Nat) (st : ScanState) : Except Err ScanState :=
  match inp with
  | [] => .ok st
  | b :: rest =>
    if isDigitB b then
      scanGo rest { st with
        c := st.c * 10 + (b - 48),
        nfraction := if st.p = 6 then st.nfraction + 1 else st.nfraction }
    else if b = 45 ∧ st.p < 3 then
      match st.p with
      | 0 => scanGo rest { st with Y := st.c, p := st.p + 1, c := 0 }
      | 1 => scanGo rest { st with M := st.c, p := st.p + 1, c := 0 }
      | _ => .error (.unexpectedChar b)
    else if b = 45 ∨ b = 43 then
      -- the `+` case, also reached from `-` by fallthrough when p ≥ hour
      let st' :=
        match st.p with
        | 3 => some { st with h := st.c, c := 0 }
        | 4 => some { st with m := st.c, c := 0 }
        | 5 => some { st with s := st.c, c := 0 }
        | 6 => some { st with fraction := st.c, c := 0 }
        | _ => none
      match st' with
      | none => .error (.unexpectedChar b)
      | some st' =>
        match ParseISOZone (b :: rest) with
        | .error e => .error e
        | .ok loc => .ok { st' with loc := loc }
    else if b = 84 then
      if st.p ≠ 2 then .error (.unexpectedChar b)
      else scanGo rest { st with d := st.c, c := 0, p := st.p + 1 }
    else if b = 58 then
      match st.p with
      | 3 => scanGo rest { st with h := st.c, c := 0, p := st.p + 1 }
      | 4 => scanGo rest { st with m := st.c, c := 0, p := st.p + 1 }
      | 5 => scanGo rest { st with m := st.c, c := 0, p := st.p + 1 }
      | _ => .error (.unexpectedChar b)
    else if b = 46 then
      if st.p ≠ 5 then .error (.unexpectedChar b)
      else scanGo rest { st with s := st.c, c := 0, p := st.p + 1 }
    else if b = 90 then
      let st' :=
        match st.p with
        | 3 => some { st with h := st.c, c := 0 }
        | 4 => some { st with m := st.c, c := 0 }
        | 5 => some { st with s := st.c, c := 0 }
        | 6 => some { st with fraction := st.c, c := 0 }
        | _ => none
      match st' with
      | none => .error (.unexpectedChar b)
      | some st' =>
        if rest ≠ [] then .error .remainingData
        else scanGo rest st'
    else .error (.unexpectedChar b)

/-- The capture of remaining data after the loop (iso8601.go lines
229–244): when the input ended with `c` nonzero and no delimiter closed
it, `c` is assigned to the field the cursor names (only the cases
`day … millisecond` appear in the Go switch). -/
def trailingCapture (st : ScanState) : ScanState :=
  if st.c > 0 then
    match st.p with
    | 2 => { st with d := st.c }
    | 3 => { st with h := st.c }
    | 4 => { st with m := st.c }
    | 5 => { st with s := st.c }
    | 6 => { st with fraction := st.c }
    | _ => st
  else st

/-- Modelled from the spec: the repository's `daysIn` helper is called
by `Parse` (iso8601.go lines 264 and 270) but its definition is not
among the provided sources.  The spec prescribes standard Gregorian
leap rules: a year is a leap year when it is divisible by 4 and (not
divisible by 100, or divisible by 400). -/
def isLeap (y : Nat) : Bool :=
  y % 4 = 0 && (y % 100 ≠ 0 || y % 400 = 0)

/-- Modelled from the spec: days in a month under standard Gregorian
rules (February has 29 days in a leap year, else 28; April, June,
September and November have 30; all other months 31). -/
def daysIn (mo y : Nat) : Nat :=
  if mo = 2 then (if isLeap y then 29 else 28)
  else if mo = 4 ∨ mo = 6 ∨ mo = 9 ∨ mo = 11 then 30
  else 31

/-- The validation switch of `Parse` (iso8601.go lines 255–296): the
first failing check wins, in the order month, day, hour, minute,
second; each failure carries the whole original input, the element
name, the given value and the bounds. -/
def validate (inp : List Nat) (Y M d h m s : Nat) : Option Err :=
  if M < 1 ∨ M > 12 then some (.range inp "month" M 1 12)
  else if d < 1 ∨ d > daysIn M Y then some (.range inp "day" d 1 (daysIn M Y))
  else if h > 23 then some (.range inp "hour" h 0 23)
  else if m > 59 then some (.range inp "minute" m 0 59)
  else if s > 59 then some (.range inp "second" s 0 59)
  else none

/-- The parsed value: `Parse` ends with `Date(Y, M, d, h, m, s,
fraction, loc)`, and since every field has just been validated to lie
within its calendar range, `time.Date` performs no normalization — the
resulting `Time` displays exactly these fields in `loc`.  It is
therefore modelled as a plain record of the fields together with the
location. -/
structure TimeVal where
  year : Nat
  month : Nat
  day : Nat
  hour : Nat
  minute : Nat
  second : Nat
  nsec : Nat
  loc : Loc
  deriving DecidableEq, Repr

/-- Go `Parse` (iso8601.go lines 115–299): run the scan loop, capture
trailing data, check and normalize the fraction, validate the fields
and build the result.  The Go fraction check `fraction < 0` can only
fire after signed overflow, which is not modelled (accumulators are
`Nat`); the Go scaling loop `for i := 0; i < scale; i++` multiplies by
10 exactly `max (10 - nfraction) 0` times, which is `Nat` subtraction
`10 - nfraction`. -/
def Parse (inp : List Nat) : Except Err TimeVal :=
  match scanGo inp initState with
  | .error e => .error e
  | .ok st0 =>
    let st := trailingCapture st0
    if 1000000000 ≤ st.fraction then .error .precision
    else
      let scale := 10 - st.nfraction
      let fraction := st.fraction * 10 ^ scale
      match validate inp st.Y st.M st.d st.h st.m st.s with
      | some e => .error e
      | none => .ok ⟨st.Y, st.M, st.d, st.h, st.m, st.s, fraction, st.loc⟩

example : Parse (bytes "2017-04-24T09:41:34.502+0100") =
    .ok ⟨2017, 4, 24, 9, 41, 34, 502000000, ⟨bytes "+0100", 3600⟩⟩ := by decide
example : Parse (bytes "2017-04-24T09:41+0100") =
    .ok ⟨2017, 4, 24, 9, 41, 0, 0, ⟨bytes "+0100", 3600⟩⟩ := by decide
example : Parse (bytes "2017-04-24T") =
    .ok ⟨2017, 4, 24, 0, 0, 0, 0, UTC⟩ := by decide
example : Parse (bytes "2017-04-24") =
    .ok ⟨2017, 4, 24, 0, 0, 0, 0, UTC⟩ := by decide
example : Parse (bytes "2017-04-24T09:41:34.502-01:00") =
    .ok ⟨2017, 4, 24, 9, 41, 34, 502000000, ⟨bytes "-01:00", -3600⟩⟩ := by decide
example : Parse (bytes "2017-04-24T09:41:34.502Z") =
    .ok ⟨2017, 4, 24, 9, 41, 34, 502000000, UTC⟩ := by decide
example : Parse (bytes "2017-04-24T09:41:34.009") =
    .ok ⟨2017, 4, 24, 9, 41, 34, 9000000, UTC⟩ := by decide
example : Parse (bytes "2017-04-24T09:41:34.89312523Z") =
    .ok ⟨2017, 4, 24, 9, 41, 34, 893125230, UTC⟩ := by decide
example : Parse (bytes "2017-04-24T09:41:34.502-00") = .error .invalidZone := by decide
example : Parse (bytes "2017-00-01T00:00:00.000+00:00") =
    .error (.range (bytes "2017-00-01T00:00:00.000+00:00") "month" 0 1 12) := by decide
example : Parse (bytes "2017-01-32T00:00:00.000+00:00") =
    .error (.range (bytes "2017-01-32T00:00:00.000+00:00") "day" 32 1 31) := by decide
example : Parse (bytes "2017-01-01T24:00:00.000+00:00") =
    .error (.range (bytes "2017-01-01T24:00:00.000+00:00") "hour" 24 0 23) := by decide
example : Parse (bytes "2017-01-01T00:60:00.000+00:00") =
    .error (.range (bytes "2017-01-01T00:60:00.000+00:00") "minute" 60 0 59) := by decide
example : Parse (bytes "2017-01-01T00:00:60.000+00:00") =
    .error (.range (bytes "2017-01-01T00:00:60.000+00:00") "second" 60 0 59) := by decide

/-! ## The JSON decoder (`UnmarshalJSON` and `null`, time.go lines 127–152) -/

/-- Go `null` (time.go lines 144–152), transcribed with its actual
boolean structure: it returns `false` when the length is not 4, then
returns `false` when **all four** bytes differ from their position in
`n`, `u`, `l`, `l` (the Go code joins the comparisons with `&&`), and
returns `true` otherwise. -/
def nullB (b : List Nat) : Bool :=
  if b.length ≠ 4 then false
  else if b.getD 0 0 ≠ 110 ∧ b.getD 1 0 ≠ 117 ∧ b.getD 2 0 ≠ 108 ∧ b.getD 3 0 ≠ 108 then false
  else true

/-- The observable outcome of `Time.UnmarshalJSON`: a Go runtime panic,
success with the destination left untouched (the `null` branch returns
`nil` without assigning), or the assignment `t.Time, err = Parse(b)`
whose error (if any) is returned to the caller. -/
inductive JSONResult where
  | panics
  | okUnchanged
  | parsed (r : Except Err TimeVal)
  deriving DecidableEq, Repr

/-- Go `Time.UnmarshalJSON` (time.go lines 127–140): a `null` payload
is a no-op; a payload whose first and last bytes are `"` (34) has them
stripped by the slice expression `b[1 : len(b)-1]` — which panics when
the lower bound 1 exceeds the upper bound `len(b)-1`, i.e. when the
payload is the single byte `"` — and the interior is handed to
`Parse`; anything else returns `ErrNotString`. -/
def UnmarshalJSON (b : List Nat) : JSONResult :=
  if nullB b then .okUnchanged
  else if b.length > 0 ∧ b.getD 0 0 = 34 ∧ b.getD (b.length - 1) 0 = 34 then
    if b.length < 2 then .panics
    else .parsed (Parse ((b.drop 1).take (b.length - 2)))
  else .parsed (.error .notString)

example : UnmarshalJSON (bytes "null") = .okUnchanged := by decide
example : UnmarshalJSON (bytes "123") = .parsed (.error .notString) := by decide
example : UnmarshalJSON (bytes "\x222017-04-24\x22") =
    .parsed (.ok ⟨2017, 4, 24, 0, 0, 0, 0, UTC⟩) := by decide

/-! ## Text encoding (`MarshalText` with the `RFC3339Nano` layout,
time.go lines 89–96) -/

/-- Two-digit zero-padded decimal rendering, as Go `appendInt(b, x, 2)`
produces for `0 ≤ x ≤ 99`. -/
def pad2 (n : Nat) : List Nat :=
  [48 + n / 10, 48 + n % 10]

/-- Four-digit zero-padded decimal rendering, as Go `appendInt(b, x, 4)`
produces for `0 ≤ x ≤ 9999` (the year, already guarded to that range). -/
def pad4 (n : Nat) : List Nat :=
  [48 + n / 1000, 48 + n / 100 % 10, 48 + n / 10 % 10, 48 + n % 10]

/-- Nine-digit zero-padded decimal rendering of the nanosecond field,
as Go `formatNano` produces before trimming. -/
def pad9 (n : Nat) : List Nat :=
  [48 + n / 100000000, 48 + n / 10000000 % 10, 48 + n / 1000000 % 10,
   48 + n / 100000 % 10, 48 + n / 10000 % 10, 48 + n / 1000 % 10,
   48 + n / 100 % 10, 48 + n / 10 % 10, 48 + n % 10]

/-- Strip trailing `0` digits (byte 48), as Go `formatNano` does in
trim mode. -/
def trimZeros (l : List Nat) : List Nat :=
  (l.reverse.dropWhile (· = 48)).reverse

/-- The fractional part of the `RFC3339Nano` layout (`.999999999`):
omitted entirely when the nanosecond field is 0, otherwise a dot
followed by the nine digits with trailing zeros trimmed. -/
def fracPart (nsec : Nat) : List Nat :=
  if nsec = 0 then [] else 46 :: trimZeros (pad9 nsec)

/-- The zone part of the `RFC3339Nano` layout (`Z07:00`): a literal `Z`
when the offset is zero, otherwise a sign followed by two-digit hours,
a colon, and two-digit minutes of the absolute offset (Go divides the
offset by 60 truncating toward zero, so offset seconds are dropped;
the offsets considered here are whole minutes). -/
def zonePart (offset : Int) : List Nat :=
  if offset = 0 then [90]
  else
    let sign := if offset < 0 then 45 else 43
    let zone := offset.natAbs / 60
    sign :: (pad2 (zone / 60) ++ 58 :: pad2 (zone % 60))

/-- The `RFC3339Nano` rendering `t.AppendFormat(b, time.RFC3339Nano)`
of a time value whose fields are within calendar ranges, layout
`2006-01-02T15:04:05.999999999Z07:00`. -/
def appendRFC3339Nano (t : TimeVal) : List Nat :=
  pad4 t.year ++ 45 :: pad2 t.month ++ 45 :: pad2 t.day ++ 84 :: pad2 t.hour ++
    58 :: pad2 t.minute ++ 58 :: pad2 t.second ++ fracPart t.nsec ++
    zonePart t.loc.offset

/-- Go `Time.MarshalText` (time.go lines 89–96) at the default
`MarshalTextFormat = RFC3339Nano`: reject years outside `[0, 9999]`
(years are `Nat` here, so only the upper bound can fail), otherwise
render. -/
def MarshalText (t : TimeVal) : Except String (List Nat) :=
  if 10000 ≤ t.year then .error "Time.MarshalText: year outside of range [0,9999]"
  else .ok (appendRFC3339Nano t)

example : MarshalText ⟨2017, 4, 24, 9, 41, 34, 502000000, ⟨bytes "+0100", 3600⟩⟩ =
    .ok (bytes "2017-04-24T09:41:34.502+01:00") := by decide
example : MarshalText ⟨2017, 4, 24, 9, 41, 34, 0, UTC⟩ =
    .ok (bytes "2017-04-24T09:41:34Z") := by decide
example : MarshalText ⟨2017, 4, 24, 9, 41, 34, 5, ⟨bytes "x", -34200⟩⟩ =
    .ok (bytes "2017-04-24T09:41:34.000000005-09:30") := by decide

/-! ## Lemmas about the zone scanning loop -/

/-- One digit step of the zone loop away from a group boundary. -/
lemma zoneLoop_digit (x : Nat) (rest : List Nat) (i z digits mult offset : Nat)
    (hx : x ≤ 9) (hd : digits ≤ 2) (hi : ¬(i = 2 ∨ i = 5)) :
    zoneLoop ((48 + x) :: rest) i z digits mult offset =
      zoneLoop rest (i + 1) (z * 10 + x) (digits + 1) mult offset := by
  have hnd : ¬digits > 2 := by omega
  have hdig : isDigitB (48 + x) = true := by simp [isDigitB]; omega
  simp [zoneLoop, hnd, hi, hdig]

/-- One digit step of the zone loop at a group boundary (index 2 or 5):
the finished group is folded into the offset first. -/
lemma zoneLoop_digit_boundary (x : Nat) (rest : List Nat) (i z digits mult offset : Nat)
    (hx : x ≤ 9) (hd : digits ≤ 2) (hi : i = 2 ∨ i = 5) :
    zoneLoop ((48 + x) :: rest) i z digits mult offset =
      zoneLoop rest (i + 1) x 1 (mult / 60) (offset + z * mult) := by
  have hnd : ¬digits > 2 := by omega
  have hdig : isDigitB (48 + x) = true := by simp [isDigitB]; omega
  simp [zoneLoop, hnd, hi, hdig]

/-- One colon step of the zone loop at a group boundary. -/
lemma zoneLoop_colon (rest : List Nat) (i z digits mult offset : Nat)
    (hd : digits ≤ 2) (hi : i = 2 ∨ i = 5) :
    zoneLoop (58 :: rest) i z digits mult offset =
      zoneLoop rest (i + 1) 0 0 (mult / 60) (offset + z * mult) := by
  have hnd : ¬digits > 2 := by omega
  have hdig : isDigitB 58 = false := by decide
  rcases hi with hi | hi <;> simp [zoneLoop, hnd, hi, hdig]

/-- The zone loop rejects a third digit in a group. -/
lemma zoneLoop_tooLong (b : Nat) (rest : List Nat) (i z digits mult offset : Nat)
    (hd : 2 < digits) :
    zoneLoop (b :: rest) i z digits mult offset = .error .zoneTooLong := by
  simp [zoneLoop, hd]

/-- The zone loop at the end of the input returns its state. -/
lemma zoneLoop_nil (i z digits mult offset : Nat) :
    zoneLoop [] i z digits mult offset = .ok (z, digits, mult, offset) := rfl

/-- No branch of the zone loop produces the Zone-Too-Short error: that
error arises only from the length check before the loop. -/
lemma zoneLoop_ne_tooShort (num : List Nat) (i z digits mult offset : Nat) :
    zoneLoop num i z digits mult offset ≠ .error .zoneTooShort := by
  induction num generalizing i z digits mult offset with
  | nil => simp [zoneLoop]
  | cons b rest ih =>
    simp only [zoneLoop]
    split
    · simp
    · split
      · exact ih _ _ _ _ _
      · split
        · split
          · simp
          · exact ih _ _ _ _ _
        · simp

/-- Go `utf8.DecodeRune` on an ASCII first byte. -/
lemma decodeRune_cons_ascii (b : Nat) (rest : List Nat) (hb : b < 128) :
    decodeRune (b :: rest) = (b, 1) := by
  simp [decodeRune, hb]

/-- The zone loop on the colon-separated three-group form `hh:mm:ss`:
each group contributes at its multiplier, the final group is left in
`z` with `digits = 2` and multiplier 1. -/
lemma zoneLoop_hhmmss (h m s : Nat) (hh : h ≤ 99) (hm : m ≤ 99) (hs : s ≤ 99) :
    zoneLoop (pad2 h ++ 58 :: pad2 m ++ 58 :: pad2 s) 0 0 0 3600 0 =
      .ok (s, 2, 1, h * 3600 + m * 60) := by
  have h1 : h / 10 ≤ 9 := by omega
  have h2 : h % 10 ≤ 9 := by omega
  have h3 : m / 10 ≤ 9 := by omega
  have h4 : m % 10 ≤ 9 := by omega
  have h5 : s / 10 ≤ 9 := by omega
  have h6 : s % 10 ≤ 9 := by omega
  simp only [pad2, List.cons_append, List.nil_append]
  rw [zoneLoop_digit _ _ _ _ _ _ _ h1 (by omega) (by decide),
      zoneLoop_digit _ _ _ _ _ _ _ h2 (by omega) (by decide),
      zoneLoop_colon _ _ _ _ _ _ (by omega) (by decide),
      zoneLoop_digit _ _ _ _ _ _ _ h3 (by omega) (by decide),
      zoneLoop_digit _ _ _ _ _ _ _ h4 (by omega) (by decide),
      zoneLoop_colon _ _ _ _ _ _ (by omega) (by decide),
      zoneLoop_digit _ _ _ _ _ _ _ h5 (by omega) (by decide),
      zoneLoop_digit _ _ _ _ _ _ _ h6 (by omega) (by decide),
      zoneLoop_nil]
  simp only [Except.ok.injEq, Prod.mk.injEq]
  norm_num
  omega

/-- The zone loop on six digits without separators: after the
four-digit `hhmm` prefix the loop is mid-group at index 4, the fifth
digit makes `digits = 3`, and the sixth input byte triggers the
Zone-Too-Long error. -/
lemma zoneLoop_hhmmss_nocolon (h m s : Nat) (hh : h ≤ 99) (hm : m ≤ 99) (hs : s ≤ 99) :
    zoneLoop (pad2 h ++ pad2 m ++ pad2 s) 0 0 0 3600 0 = .error .zoneTooLong := by
  have h1 : h / 10 ≤ 9 := by omega
  have h2 : h % 10 ≤ 9 := by omega
  have h3 : m / 10 ≤ 9 := by omega
  have h4 : m % 10 ≤ 9 := by omega
  have h5 : s / 10 ≤ 9 := by omega
  simp only [pad2, List.cons_append, List.nil_append]
  rw [zoneLoop_digit _ _ _ _ _ _ _ h1 (by omega) (by decide),
      zoneLoop_digit _ _ _ _ _ _ _ h2 (by omega) (by decide),
      zoneLoop_digit_boundary _ _ _ _ _ _ _ h3 (by omega) (by decide),
      zoneLoop_digit _ _ _ _ _ _ _ h4 (by omega) (by decide),
      zoneLoop_digit _ _ _ _ _ _ _ h5 (by omega) (by decide),
      zoneLoop_tooLong _ _ _ _ _ _ _ (by omega)]

/-! ## Claims -/

/-- C1: the claim states that a `:` scanned while the cursor is at the
second field stores the accumulator into the second field, leaving the
stored minute value unchanged.  The code (iso8601.go line 194) instead
stores the accumulator into the **minute** field: on the input
`2017-04-24T09:41:34:05`, the colon after `34` overwrites the minute
value 41 with 34, the second field stays 0, and the digits `05` are
then taken as a fraction — the parse succeeds with minute 34 and
second 0, where the claim requires second 34 and minute 41. -/
theorem c1_colon_at_second_stores_minute :
    Parse (bytes "2017-04-24T09:41:34:05") =
      .ok ⟨2017, 4, 24, 9, 34, 0, 50000000, UTC⟩ ∧
    ∀ t, Parse (bytes "2017-04-24T09:41:34:05") = .ok t →
      ¬(t.second = 34 ∧ t.minute = 41) := by
  refine ⟨by decide, ?_⟩
  intro t ht
  have h : t = ⟨2017, 4, 24, 9, 34, 0, 50000000, UTC⟩ := by
    have := ht.symm.trans (by decide : Parse (bytes "2017-04-24T09:41:34:05") =
      .ok ⟨2017, 4, 24, 9, 34, 0, 50000000, UTC⟩)
    exact (Except.ok.injEq _ _).mp this
  subst h
  decide

/-- C2: the claim states that a literal `null` payload is a no-op, that
a quote-wrapped payload is stripped and handed to the scanner, and that
every other payload fails with the not-a-string error before the
scanner runs.  The first part holds, but the `null` recognizer
(time.go line 148) joins its four byte comparisons with `&&` instead of
`||`, so it accepts any 4-byte payload in which at least one byte
matches `null` at its position: the unquoted payload `nxxx` is treated
as null (success, destination unchanged) instead of failing
not-a-string, and the quoted payload `"nl"` is also treated as null
instead of being stripped and scanned. -/
theorem c2_null_check_accepts_nxxx :
    UnmarshalJSON (bytes "null") = .okUnchanged ∧
    UnmarshalJSON (bytes "nxxx") = .okUnchanged ∧
    UnmarshalJSON (bytes "nxxx") ≠ .parsed (.error .notString) ∧
    UnmarshalJSON (bytes "\x22nl\x22") = .okUnchanged ∧
    UnmarshalJSON (bytes "\x22nl\x22") ≠ .parsed (Parse (bytes "nl")) := by
  refine ⟨by decide, by decide, by decide, by decide, by decide⟩

/-- The fraction digit counter never decreases during a scan (it
starts at 1 in `Parse` and is only ever incremented). -/
lemma scanGo_nfraction_mono (inp : List Nat) :
    ∀ st st', scanGo inp st = .ok st' → st.nfraction ≤ st'.nfraction := by
  induction inp with
  | nil =>
    intro st st' h
    cases h
    exact le_refl _
  | cons b rest ih =>
    intro st st' h
    simp only [scanGo] at h
    split at h
    · -- digit: the counter grows by 0 or 1
      refine le_trans ?_ (ih _ _ h)
      simp only
      split <;> omega
    · split at h
      · -- `-` while the date is open
        split at h
        · simpa using ih _ _ h
        · simpa using ih _ _ h
        · cases h
      · split at h
        · -- zone sign: the scan stops with only the location replaced
          split at h
          · cases h
          · rename_i st2 hmatch
            split at h
            · cases h
            · cases h
              have h2 : st2.nfraction = st.nfraction := by
                split at hmatch <;> (try cases hmatch) <;> rfl
              exact le_of_eq h2.symm
        · split at h
          · -- `T`
            split at h
            · cases h
            · simpa using ih _ _ h
          · split at h
            · -- `:`
              split at h
              · simpa using ih _ _ h
              · simpa using ih _ _ h
              · simpa using ih _ _ h
              · cases h
            · split at h
              · -- `.`
                split at h
                · cases h
                · simpa using ih _ _ h
              · split at h
                · -- `Z`
                  split at h
                  · cases h
                  · rename_i st2 hmatch
                    split at h
                    · cases h
                    · have h2 : st2.nfraction = st.nfraction := by
                        split at hmatch <;> (try cases hmatch) <;> rfl
                      calc st.nfraction = st2.nfraction := h2.symm
                        _ ≤ st'.nfraction := ih _ _ h
                · cases h

/-- `trailingCapture` leaves the fraction digit counter unchanged. -/
lemma trailingCapture_nfraction (st : ScanState) :
    (trailingCapture st).nfraction = st.nfraction := by
  unfold trailingCapture
  repeat' split
  all_goals rfl

/-- The validator only ever produces `RangeError`s, in particular never
the Precision error. -/
lemma validate_ne_precision (inp : List Nat) (Y M d h m s : Nat) :
    validate inp Y M d h m s ≠ some .precision := by
  unfold validate
  repeat' split
  all_goals simp

/-- C3 counterexample: the claim states that the nanosecond field is
`c * 10^(9-k)` and that the Precision error strikes exactly when that
value falls outside `[0, 1e9)`.  With the 10-digit fraction
`1000000000` we have `k = 10` and `c = 10^9`, so the claim's normalized
value is `10^9 * 10^(9-10) = 10^8`, inside `[0, 1e9)` — yet the code
raises the Precision error, because its check `1e9 <= fraction` is
applied to the raw accumulator before scaling, and a negative scale
performs no scaling at all. -/
theorem c3_counterexample :
    Parse (bytes "2017-01-01T00:00:00.1000000000Z") = .error .precision ∧
    (0 : ℚ) ≤ 1000000000 * (10 : ℚ) ^ ((9 : ℤ) - 10) ∧
    1000000000 * (10 : ℚ) ^ ((9 : ℤ) - 10) < 1000000000 := by
  refine ⟨by decide, by norm_num, by norm_num⟩

/-- C3 amended: let `c` be the raw accumulated fraction value and `k`
the number of fraction digits consumed after a successful scan (so
`nfraction = k + 1`).  The Precision error strikes exactly when
`c ≥ 1e9` (for `k ≤ 9` this never happens, and it coincides with the
normalized value lying outside `[0, 1e9)` under the corrected scaling
rule), and on success the nanosecond field is `c * 10^(9-k)` with
**truncated** (`Nat`) subtraction in the exponent — that is, for
`k ≥ 9` no rescaling occurs and the field equals `c`. -/
theorem c3_fraction_normalization (inp : List Nat) (st : ScanState)
    (hscan : scanGo inp initState = .ok st) :
    (Parse inp = .error .precision ↔
      1000000000 ≤ (trailingCapture st).fraction) ∧
    (∀ res, Parse inp = .ok res →
      res.nsec = (trailingCapture st).fraction *
        10 ^ (9 - ((trailingCapture st).nfraction - 1))) := by
  have hmono := scanGo_nfraction_mono inp initState st hscan
  have hpos : 1 ≤ st.nfraction := hmono
  have hexp : 10 - (trailingCapture st).nfraction =
      9 - ((trailingCapture st).nfraction - 1) := by
    rw [trailingCapture_nfraction]
    omega
  unfold Parse
  rw [hscan]
  dsimp only
  constructor
  · constructor
    · intro hp
      by_contra hlt
      simp only [not_le] at hlt
      rw [if_neg (by omega)] at hp
      split at hp
      · rename_i e heq
        cases hp
        exact validate_ne_precision _ _ _ _ _ _ _ heq
      · cases hp
    · intro hge
      rw [if_pos hge]
  · intro res hres
    split at hres
    · cases hres
    · rename_i hfr
      split at hres
      · cases hres
      · cases hres
        simp only
        rw [hexp]

/-- C3 witness: the amended normalization law applied at the input
`2017-04-24T09:41:34.502Z`, whose scan ends with fraction accumulator
502 and `nfraction = 4` (three fraction digits). -/
theorem c3_witness :
    (Parse (bytes "2017-04-24T09:41:34.502Z") = .error .precision ↔
      1000000000 ≤ (trailingCapture
        ⟨2017, 4, 24, 9, 41, 34, 502, 4, UTC, 0, 6⟩).fraction) ∧
    (∀ res, Parse (bytes "2017-04-24T09:41:34.502Z") = .ok res →
      res.nsec = (trailingCapture ⟨2017, 4, 24, 9, 41, 34, 502, 4, UTC, 0, 6⟩).fraction *
        10 ^ (9 - ((trailingCapture
          ⟨2017, 4, 24, 9, 41, 34, 502, 4, UTC, 0, 6⟩).nfraction - 1))) :=
  c3_fraction_normalization (bytes "2017-04-24T09:41:34.502Z")
    ⟨2017, 4, 24, 9, 41, 34, 502, 4, UTC, 0, 6⟩ (by decide)

/-- Follows the spec's words for C7: the validation contract as an
ordered list of checks — month in `[1,12]`, day in
`[1, days-in-month]`, hour ≤ 23, minute ≤ 59, second ≤ 59 — where the
first failing check produces its Range error, which carries the element
name, offending value, bounds, and the complete original input. -/
def rangeChecks (inp : List Nat) (Y M d h m s : Nat) : List (Bool × Err) :=
  [(decide (M < 1 ∨ M > 12), .range inp "month" M 1 12),
   (decide (d < 1 ∨ d > daysIn M Y), .range inp "day" d 1 (daysIn M Y)),
   (decide (h > 23), .range inp "hour" h 0 23),
   (decide (m > 59), .range inp "minute" m 0 59),
   (decide (s > 59), .range inp "second" s 0 59)]

/-- Follows the spec's words for C7: the first failing check wins. -/
def validateSpec (inp : List Nat) (Y M d h m s : Nat) : Option Err :=
  ((rangeChecks inp Y M d h m s).find? (fun pr => pr.1)).map (fun pr => pr.2)

/-- The zone loop never produces a Range error. -/
lemma zoneLoop_no_range (num : List Nat) (i z digits mult offset : Nat)
    (v : List Nat) (el : String) (g mn mx : Nat) :
    zoneLoop num i z digits mult offset ≠ .error (.range v el g mn mx) := by
  induction num generalizing i z digits mult offset with
  | nil => simp [zoneLoop]
  | cons b rest ih =>
    simp only [zoneLoop]
    split
    · simp
    · split
      · exact ih _ _ _ _ _
      · split
        · split
          · simp
          · exact ih _ _ _ _ _
        · simp

/-- The zone parser never produces a Range error. -/
lemma parseISOZone_no_range (inp : List Nat)
    (v : List Nat) (el : String) (g mn mx : Nat) :
    ParseISOZone inp ≠ .error (.range v el g mn mx) := by
  intro hc
  by_cases h90 : (decodeRune inp).1 = 90
  · simp [ParseISOZone, h90] at hc
  · by_cases hsign : (decodeRune inp).1 = 43 ∨ (decodeRune inp).1 = 45 ∨ (decodeRune inp).1 = 8722
    · by_cases hlen : inp.length < 3
      · simp [ParseISOZone, h90, hsign, hlen] at hc
      · simp only [ParseISOZone, h90, if_false, hsign, if_true, hlen] at hc
        split at hc
        · rename_i e heq
          cases hc
          exact zoneLoop_no_range _ _ _ _ _ _ _ _ _ _ _ heq
        · split at hc
          · cases hc
          · revert hc
            split <;> (split <;> simp)
    · by_cases hfd : (decodeRune inp).1 = 65533
      · simp [ParseISOZone, h90, hsign, hfd] at hc
      · simp [ParseISOZone, h90, hsign, hfd] at hc

/-- The scanner never produces a Range error: all its own errors are
lexical or the Remaining-Data error, and the zone hand-off only yields
zone errors. -/
lemma scanGo_no_range (inp : List Nat) :
    ∀ st v el g mn mx, scanGo inp st ≠ .error (.range v el g mn mx) := by
  induction inp with
  | nil =>
    intro st v el g mn mx
    simp [scanGo]
  | cons b rest ih =>
    intro st v el g mn mx h
    simp only [scanGo] at h
    split at h
    · exact ih _ _ _ _ _ _ h
    · split at h
      · split at h
        · exact ih _ _ _ _ _ _ h
        · exact ih _ _ _ _ _ _ h
        · cases h
      · split at h
        · split at h
          · cases h
          · split at h
            · cases h
              exact parseISOZone_no_range (b :: rest) v el g mn mx (by rw [‹ParseISOZone (b :: rest) = _›])
            · cases h
        · split at h
          · split at h
            · cases h
            · exact ih _ _ _ _ _ _ h
          · split at h
            · split at h
              · exact ih _ _ _ _ _ _ h
              · exact ih _ _ _ _ _ _ h
              · exact ih _ _ _ _ _ _ h
              · cases h
            · split at h
              · split at h
                · cases h
                · exact ih _ _ _ _ _ _ h
              · split at h
                · split at h
                  · cases h
                  · split at h
                    · cases h
                    · exact ih _ _ _ _ _ _ h
                · cases h

/-- Every Range error produced by the validator carries the whole
original input as its value. -/
lemma validate_range_value (inp : List Nat) (Y M d h m s : Nat)
    (v : List Nat) (el : String) (g mn mx : Nat)
    (hv : validate inp Y M d h m s = some (.range v el g mn mx)) : v = inp := by
  unfold validate at hv
  repeat' split at hv
  all_goals simp_all

/-- C4 counterexample: the claim states that a sign followed by fewer
than 3 remaining bytes fails Zone-Too-Short.  The code checks
`len(inp) < 3` on the **whole** input, sign included, so `+01` — a
sign followed by only 2 bytes — passes the check and parses
successfully to offset 3600 (it is one of the documented `±hh`
spellings). -/
theorem c4_counterexample :
    (decodeRune (bytes "+01")).1 = 43 ∧
    (bytes "+01").length - (decodeRune (bytes "+01")).2 = 2 ∧
    ParseISOZone (bytes "+01") = .ok ⟨bytes "+01", 3600⟩ := by decide

/-- C4 amended: for a sign-initial input, `ParseISOZone` fails with
Zone-Too-Short exactly when the **total** input is shorter than 3
bytes (for a 1-byte ASCII sign: fewer than 2 bytes remain after the
sign); with total length at least 3 the error never occurs. -/
theorem c4_zone_too_short (inp : List Nat)
    (h : (decodeRune inp).1 = 43 ∨ (decodeRune inp).1 = 45 ∨ (decodeRune inp).1 = 8722) :
    (inp.length < 3 → ParseISOZone inp = .error .zoneTooShort) ∧
    (3 ≤ inp.length → ParseISOZone inp ≠ .error .zoneTooShort) := by
  have h90 : (decodeRune inp).1 ≠ 90 := by rcases h with h | h | h <;> omega
  constructor
  · intro hlen
    have : (decodeRune inp).1 = 43 ∨ (decodeRune inp).1 = 45 ∨ (decodeRune inp).1 = 8722 := h
    simp only [ParseISOZone, h90, if_false, this, if_true, hlen]
  · intro hlen
    have hnl : ¬inp.length < 3 := by omega
    simp only [ParseISOZone, h90, if_false, h, if_true, hnl]
    split
    · rename_i e heq
      intro hc
      apply zoneLoop_ne_tooShort (inp.drop (decodeRune inp).2) 0 0 0 3600 0
      rw [heq]
      cases hc
      rfl
    · repeat' split
      all_goals simp

/-- C5 counterexample: the claim states that every six-digit `±hhmmss`
spelling without colons parses to `±(hh*3600 + mm*60 + ss)`.  The loop
only recognizes group boundaries at byte indexes 2 and 5 (the positions
of the colons in `hh:mm:ss`), so in `+013045` the fifth digit lands in
a group that already has two digits and the parse fails with
Zone-Too-Long instead of succeeding with offset 5445. -/
theorem c5_counterexample :
    ParseISOZone (bytes "+013045") = .error .zoneTooLong ∧
    ParseISOZone (bytes "+013045") ≠ .ok ⟨bytes "+013045", 5445⟩ := by
  exact ⟨by decide, by decide⟩

/-- C5 amended: after the sign, the zone is scanned as up to three
2-digit groups with colons recognized exactly at the boundaries
between groups 1/2 and 2/3, and a successful parse returns
`hours*3600 + minutes*60 + seconds` with the sign applied; the
colon-separated `±hh:mm:ss` spelling parses to exactly that offset,
while the six-digit `±hhmmss` spelling without colons is rejected with
Zone-Too-Long (without colons only `±hh` and `±hhmm` reach the end in
a well-formed group). -/
theorem c5_zone_groups (sign h m s : Nat) (hsign : sign = 43 ∨ sign = 45)
    (hh : h ≤ 99) (hm : m ≤ 99) (hs : s ≤ 99)
    (hz : sign = 45 → ¬(h = 0 ∧ m = 0 ∧ s = 0)) :
    ParseISOZone (sign :: (pad2 h ++ 58 :: pad2 m ++ 58 :: pad2 s)) =
      .ok ⟨sign :: (pad2 h ++ 58 :: pad2 m ++ 58 :: pad2 s),
           (if sign = 45 then (-1 : Int) else 1) * (h * 3600 + m * 60 + s)⟩ ∧
    ParseISOZone (sign :: (pad2 h ++ pad2 m ++ pad2 s)) = .error .zoneTooLong := by
  have e2 := zoneLoop_hhmmss h m s hh hm hs
  have e3 := zoneLoop_hhmmss_nocolon h m s hh hm hs
  constructor
  · rcases hsign with h' | h' <;> subst h'
    · have e1 : decodeRune (43 :: (pad2 h ++ 58 :: pad2 m ++ 58 :: pad2 s)) = (43, 1) :=
        decodeRune_cons_ascii _ _ (by omega)
      have e2' : zoneLoop [48 + h / 10, 48 + h % 10, 58, 48 + m / 10, 48 + m % 10, 58,
          48 + s / 10, 48 + s % 10] 0 0 0 3600 0 = .ok (s, 2, 1, h * 3600 + m * 60) := by
        simpa [pad2] using e2
      simp only [ParseISOZone, e1]
      norm_num [pad2]
      rw [e2']
      norm_num
    · have e1 : decodeRune (45 :: (pad2 h ++ 58 :: pad2 m ++ 58 :: pad2 s)) = (45, 1) :=
        decodeRune_cons_ascii _ _ (by omega)
      have hz' : ¬(h = 0 ∧ m = 0 ∧ s = 0) := hz rfl
      have e2' : zoneLoop [48 + h / 10, 48 + h % 10, 58, 48 + m / 10, 48 + m % 10, 58,
          48 + s / 10, 48 + s % 10] 0 0 0 3600 0 = .ok (s, 2, 1, h * 3600 + m * 60) := by
        simpa [pad2] using e2
      simp only [ParseISOZone, e1]
      norm_num [pad2]
      rw [e2']
      norm_num
      intro hcon
      exact absurd (by omega : h = 0 ∧ m = 0 ∧ s = 0) hz'
  · rcases hsign with h' | h' <;> subst h'
    · have e1 : decodeRune (43 :: (pad2 h ++ pad2 m ++ pad2 s)) = (43, 1) :=
        decodeRune_cons_ascii _ _ (by omega)
      have e3' : zoneLoop [48 + h / 10, 48 + h % 10, 48 + m / 10, 48 + m % 10,
          48 + s / 10, 48 + s % 10] 0 0 0 3600 0 = .error .zoneTooLong := by
        simpa [pad2] using e3
      simp only [ParseISOZone, e1]
      norm_num [pad2]
      rw [e3']
    · have e1 : decodeRune (45 :: (pad2 h ++ pad2 m ++ pad2 s)) = (45, 1) :=
        decodeRune_cons_ascii _ _ (by omega)
      have e3' : zoneLoop [48 + h / 10, 48 + h % 10, 48 + m / 10, 48 + m % 10,
          48 + s / 10, 48 + s % 10] 0 0 0 3600 0 = .error .zoneTooLong := by
        simpa [pad2] using e3
      simp only [ParseISOZone, e1]
      norm_num [pad2]
      rw [e3']

/-- C6: a negative sign (`-` or the Unicode minus) can never produce a
zero offset — any such input is rejected before the zone is returned
(the guard `neg && offset == 0` yields Invalid-Zone) — and concretely
`-00`, `-0000` and `-00:00` all fail Invalid-Zone, while `+00:00`
succeeds with offset 0 and `Z` yields UTC. -/
theorem c6_negative_zero_rejected (inp : List Nat)
    (hneg : (decodeRune inp).1 = 45 ∨ (decodeRune inp).1 = 8722) :
    (∀ l, ParseISOZone inp = .ok l → l.offset ≠ 0) ∧
    ParseISOZone (bytes "-00") = .error .invalidZone ∧
    ParseISOZone (bytes "-0000") = .error .invalidZone ∧
    ParseISOZone (bytes "-00:00") = .error .invalidZone ∧
    ParseISOZone (bytes "+00:00") = .ok ⟨bytes "+00:00", 0⟩ ∧
    ParseISOZone (bytes "Z") = .ok UTC := by
  refine ⟨?_, by decide, by decide, by decide, by decide, by decide⟩
  intro l hl
  have h90 : (decodeRune inp).1 ≠ 90 := by rcases hneg with h | h <;> omega
  have hsign : (decodeRune inp).1 = 43 ∨ (decodeRune inp).1 = 45 ∨ (decodeRune inp).1 = 8722 := by
    tauto
  have hnegT : (decide ((decodeRune inp).1 = 45 ∨ (decodeRune inp).1 = 8722)) = true := by
    simpa using hneg
  simp only [ParseISOZone, h90, if_false, hsign, if_true, hnegT] at hl
  split at hl
  · cases hl
  · split at hl
    · cases hl
    · rename_i z digits mult offset heq
      split at hl
      · cases hl
      · split at hl
        · cases hl
        · rename_i hcond
          cases hl
          intro h0
          exact hcond (by simpa using h0)

/-- C4 witness: the amended Zone-Too-Short law evaluated at `+0`
(2 bytes, error) and at `+01:00` (6 bytes, no such error). -/
theorem c4_witness :
    ParseISOZone (bytes "+0") = .error .zoneTooShort ∧
    ParseISOZone (bytes "+01:00") ≠ .error .zoneTooShort :=
  ⟨(c4_zone_too_short (bytes "+0") (by decide)).1 (by decide),
   (c4_zone_too_short (bytes "+01:00") (by decide)).2 (by decide)⟩

/-- C5 witness: the amended zone-group law evaluated at sign `-` with
hours 5, minutes 30, seconds 15. -/
theorem c5_witness :
    ParseISOZone (45 :: (pad2 5 ++ 58 :: pad2 30 ++ 58 :: pad2 15)) =
      .ok ⟨45 :: (pad2 5 ++ 58 :: pad2 30 ++ 58 :: pad2 15),
           (if 45 = 45 then (-1 : Int) else 1) * (5 * 3600 + 30 * 60 + 15)⟩ ∧
    ParseISOZone (45 :: (pad2 5 ++ pad2 30 ++ pad2 15)) = .error .zoneTooLong :=
  c5_zone_groups 45 5 30 15 (Or.inr rfl) (by omega) (by omega) (by omega)
    (fun _ => by simp)

/-- C6 witness: the negative-zero law evaluated at the input `-01`
(and the closed conjuncts it carries). -/
theorem c6_witness :
    (∀ l, ParseISOZone (bytes "-01") = .ok l → l.offset ≠ 0) ∧
    ParseISOZone (bytes "-00") = .error .invalidZone ∧
    ParseISOZone (bytes "-0000") = .error .invalidZone ∧
    ParseISOZone (bytes "-00:00") = .error .invalidZone ∧
    ParseISOZone (bytes "+00:00") = .ok ⟨bytes "+00:00", 0⟩ ∧
    ParseISOZone (bytes "Z") = .ok UTC :=
  c6_negative_zero_rejected (bytes "-01") (by decide)

/-! ## Digit-run lemmas for the scanner (used for the round-trip) -/

/-- The value accumulated by scanning a run of digit bytes starting
from accumulator `c` (the scanner's `c = c*10 + digit` step). -/
def accVal (c : Nat) (ds : List Nat) : Nat :=
  ds.foldl (fun a b => a * 10 + (b - 48)) c

/-- One digit step of the scanner as a state function. -/
def digitStep (st : ScanState) (b : Nat) : ScanState :=
  { st with
    c := st.c * 10 + (b - 48),
    nfraction := if st.p = 6 then st.nfraction + 1 else st.nfraction }

/-- Scanning a run of digit bytes folds `digitStep` over them. -/
lemma scan_digits (ds : List Nat) (rest : List Nat) (st : ScanState)
    (hds : ∀ b ∈ ds, isDigitB b = true) :
    scanGo (ds ++ rest) st = scanGo rest (ds.foldl digitStep st) := by
  induction ds generalizing st with
  | nil => rfl
  | cons b ds ih =>
    have hb : isDigitB b = true := hds b (by simp)
    rw [List.cons_append]
    rw [show scanGo (b :: (ds ++ rest)) st = scanGo (ds ++ rest) (digitStep st b) by
      simp [scanGo, hb, digitStep]]
    exact ih _ (fun b hb => hds b (by simp [hb]))

/-- The state after folding a digit run: the accumulator holds the
accumulated value, the fraction counter advanced by the run length
when the cursor is at the fraction, and everything else is unchanged. -/
lemma foldl_digitStep (ds : List Nat) (st : ScanState) :
    ds.foldl digitStep st =
      { st with
        c := accVal st.c ds,
        nfraction := if st.p = 6 then st.nfraction + ds.length else st.nfraction } := by
  induction ds generalizing st with
  | nil =>
    simp only [List.foldl_nil, accVal, List.length_nil]
    split <;> rfl
  | cons b ds ih =>
    rw [List.foldl_cons, ih]
    simp only [digitStep, accVal, List.foldl_cons, List.length_cons]
    split <;> rename_i hsplit
    · simp only [hsplit, if_pos]
      congr 1
      omega
    · simp only [hsplit, if_neg]

/-- All bytes of `pad2 n` are digits when `n ≤ 99`. -/
lemma pad2_digits (n : Nat) (hn : n ≤ 99) : ∀ b ∈ pad2 n, isDigitB b = true := by
  simp [pad2, isDigitB]
  omega

/-- All bytes of `pad4 n` are digits when `n ≤ 9999`. -/
lemma pad4_digits (n : Nat) (hn : n ≤ 9999) : ∀ b ∈ pad4 n, isDigitB b = true := by
  simp [pad4, isDigitB]
  omega

/-- All bytes of `pad9 n` are digits when `n < 10^9`. -/
lemma pad9_digits (n : Nat) (hn : n < 1000000000) : ∀ b ∈ pad9 n, isDigitB b = true := by
  simp [pad9, isDigitB]
  omega

/-- Accumulating over an append splits into two accumulations. -/
lemma accVal_append (c : Nat) (ds1 ds2 : List Nat) :
    accVal c (ds1 ++ ds2) = accVal (accVal c ds1) ds2 := by
  simp [accVal, List.foldl_append]

/-- Accumulating a two-digit zero-padded rendering. -/
lemma accVal_pad2 (c n : Nat) (_hn : n ≤ 99) : accVal c (pad2 n) = c * 100 + n := by
  simp [accVal, pad2]
  omega

/-- Accumulating a four-digit zero-padded rendering. -/
lemma accVal_pad4 (n : Nat) (hn : n ≤ 9999) : accVal 0 (pad4 n) = n := by
  simp [accVal, pad4]
  omega

/-- Accumulating a nine-digit zero-padded rendering. -/
lemma accVal_pad9 (n : Nat) (hn : n < 1000000000) : accVal 0 (pad9 n) = n := by
  simp [accVal, pad9]
  omega

/-- Trailing zero digits multiply the accumulated value by a power of
ten. -/
lemma accVal_append_zeros (c : Nat) (ds : List Nat) (t : Nat) :
    accVal c (ds ++ List.replicate t 48) = accVal c ds * 10 ^ t := by
  induction t with
  | zero => simp
  | succ t ih =>
    rw [List.replicate_succ', ← List.append_assoc, accVal_append, ih]
    simp [accVal]
    ring

/-- Any list splits into its trailing-zero-trimmed prefix and a run of
zero digits. -/
lemma trimZeros_decomp (l : List Nat) :
    ∃ t, l = trimZeros l ++ List.replicate t 48 := by
  refine ⟨(l.reverse.takeWhile (· = 48)).length, ?_⟩
  conv_lhs => rw [← List.reverse_reverse l,
    ← List.takeWhile_append_dropWhile (· = 48) l.reverse]
  rw [List.reverse_append, trimZeros]
  congr 1
  have h2 : ∀ b ∈ l.reverse.takeWhile (· = 48), b = 48 := fun b hb => by
    simpa using List.mem_takeWhile_imp hb
  have h3 : l.reverse.takeWhile (· = 48) =
      List.replicate (l.reverse.takeWhile (· = 48)).length 48 :=
    List.eq_replicate_iff.mpr ⟨rfl, h2⟩
  conv_lhs => rw [h3]
  exact List.reverse_replicate ..

/-- Trimming only removes elements. -/
lemma trimZeros_sub (l : List Nat) : ∀ b ∈ trimZeros l, b ∈ l := by
  obtain ⟨t, ht⟩ := trimZeros_decomp l
  intro b hb
  rw [ht]
  exact List.mem_append_left _ hb

/-- The trimmed nine-digit rendering of a nonzero nanosecond value:
its digits are digits, its length is `9 - t` for the number `t` of
trailing zeros, it is nonempty, and scanning it accumulates a value
`v` with `v * 10^t` equal to the original and `v < 10^9`. -/
lemma frac_digits_spec (nsec : Nat) (h0 : nsec ≠ 0) (hlt : nsec < 1000000000) :
    ∃ t, t ≤ 9 ∧ (trimZeros (pad9 nsec)).length + t = 9 ∧
      trimZeros (pad9 nsec) ≠ [] ∧
      accVal 0 (trimZeros (pad9 nsec)) * 10 ^ t = nsec ∧
      (∀ b ∈ trimZeros (pad9 nsec), isDigitB b = true) ∧
      accVal 0 (trimZeros (pad9 nsec)) < 1000000000 := by
  obtain ⟨t, ht⟩ := trimZeros_decomp (pad9 nsec)
  have hlen : (trimZeros (pad9 nsec)).length + t = 9 := by
    have h9 : (pad9 nsec).length = 9 := by simp [pad9]
    have hl := congrArg List.length ht
    rw [h9, List.length_append, List.length_replicate] at hl
    omega
  have hval : accVal 0 (trimZeros (pad9 nsec)) * 10 ^ t = nsec :=
    calc accVal 0 (trimZeros (pad9 nsec)) * 10 ^ t
        = accVal 0 (trimZeros (pad9 nsec) ++ List.replicate t 48) :=
          (accVal_append_zeros 0 _ t).symm
      _ = accVal 0 (pad9 nsec) := by rw [← ht]
      _ = nsec := accVal_pad9 nsec hlt
  have hne : trimZeros (pad9 nsec) ≠ [] := by
    intro he
    rw [he] at hval
    simp [accVal] at hval
    exact h0 hval.symm
  have hdig : ∀ b ∈ trimZeros (pad9 nsec), isDigitB b = true :=
    fun b hb => pad9_digits nsec hlt b (trimZeros_sub _ b hb)
  have hv : accVal 0 (trimZeros (pad9 nsec)) < 1000000000 := by
    have h1 : accVal 0 (trimZeros (pad9 nsec)) ≤
        accVal 0 (trimZeros (pad9 nsec)) * 10 ^ t :=
      Nat.le_mul_of_pos_right _ (Nat.pos_pow_of_pos t (by omega))
    omega
  exact ⟨t, by omega, hlen, hne, hval, hdig, hv⟩

/-! ## Delimiter step lemmas for the scanner -/

/-- The `-` delimiter while the year is open. -/
lemma scanGo_dash_year (rest : List Nat) (st : ScanState) (hp : st.p = 0) :
    scanGo (45 :: rest) st = scanGo rest { st with Y := st.c, p := st.p + 1, c := 0 } := by
  simp [scanGo, isDigitB, hp]

/-- The `-` delimiter while the month is open. -/
lemma scanGo_dash_month (rest : List Nat) (st : ScanState) (hp : st.p = 1) :
    scanGo (45 :: rest) st = scanGo rest { st with M := st.c, p := st.p + 1, c := 0 } := by
  simp [scanGo, isDigitB, hp]

/-- The `T` delimiter while the day is open. -/
lemma scanGo_T (rest : List Nat) (st : ScanState) (hp : st.p = 2) :
    scanGo (84 :: rest) st = scanGo rest { st with d := st.c, c := 0, p := st.p + 1 } := by
  simp [scanGo, isDigitB, hp]

/-- The `:` delimiter while the hour is open. -/
lemma scanGo_colon_hour (rest : List Nat) (st : ScanState) (hp : st.p = 3) :
    scanGo (58 :: rest) st = scanGo rest { st with h := st.c, c := 0, p := st.p + 1 } := by
  simp [scanGo, isDigitB, hp]

/-- The `:` delimiter while the minute is open. -/
lemma scanGo_colon_minute (rest : List Nat) (st : ScanState) (hp : st.p = 4) :
    scanGo (58 :: rest) st = scanGo rest { st with m := st.c, c := 0, p := st.p + 1 } := by
  simp [scanGo, isDigitB, hp]

/-- The `.` delimiter while the second is open. -/
lemma scanGo_dot (rest : List Nat) (st : ScanState) (hp : st.p = 5) :
    scanGo (46 :: rest) st = scanGo rest { st with s := st.c, c := 0, p := st.p + 1 } := by
  simp [scanGo, isDigitB, hp]

/-- A final `Z` while the second is open. -/
lemma scanGo_Z_second (st : ScanState) (hp : st.p = 5) :
    scanGo [90] st = .ok { st with s := st.c, c := 0 } := by
  simp [scanGo, isDigitB, hp]

/-- A final `Z` while the fraction is open. -/
lemma scanGo_Z_frac (st : ScanState) (hp : st.p = 6) :
    scanGo [90] st = .ok { st with fraction := st.c, c := 0 } := by
  simp [scanGo, isDigitB, hp]

/-- A zone sign while the second is open: the scan stores the second,
delegates to the zone parser, and stops. -/
lemma scanGo_sign_second (b : Nat) (rest : List Nat) (st : ScanState) (loc : Loc)
    (hb : b = 43 ∨ b = 45) (hp : st.p = 5)
    (hz : ParseISOZone (b :: rest) = .ok loc) :
    scanGo (b :: rest) st = .ok { st with s := st.c, c := 0, loc := loc } := by
  rcases hb with hb | hb <;> subst hb <;> simp [scanGo, isDigitB, hp, hz]

/-- A zone sign while the fraction is open. -/
lemma scanGo_sign_frac (b : Nat) (rest : List Nat) (st : ScanState) (loc : Loc)
    (hb : b = 43 ∨ b = 45) (hp : st.p = 6)
    (hz : ParseISOZone (b :: rest) = .ok loc) :
    scanGo (b :: rest) st = .ok { st with fraction := st.c, c := 0, loc := loc } := by
  rcases hb with hb | hb <;> subst hb <;> simp [scanGo, isDigitB, hp, hz]

/-- The zone loop on the colon-separated two-group form `hh:mm`. -/
lemma zoneLoop_hhmm (h m : Nat) (hh : h ≤ 99) (hm : m ≤ 99) :
    zoneLoop (pad2 h ++ 58 :: pad2 m) 0 0 0 3600 0 = .ok (m, 2, 60, h * 3600) := by
  have h1 : h / 10 ≤ 9 := by omega
  have h2 : h % 10 ≤ 9 := by omega
  have h3 : m / 10 ≤ 9 := by omega
  have h4 : m % 10 ≤ 9 := by omega
  simp only [pad2, List.cons_append, List.nil_append]
  rw [zoneLoop_digit _ _ _ _ _ _ _ h1 (by omega) (by decide),
      zoneLoop_digit _ _ _ _ _ _ _ h2 (by omega) (by decide),
      zoneLoop_colon _ _ _ _ _ _ (by omega) (by decide),
      zoneLoop_digit _ _ _ _ _ _ _ h3 (by omega) (by decide),
      zoneLoop_digit _ _ _ _ _ _ _ h4 (by omega) (by decide),
      zoneLoop_nil]
  simp only [Except.ok.injEq, Prod.mk.injEq]
  norm_num
  omega

/-- The rendered zone suffix of a nonzero whole-minute offset with
absolute value under 100 hours parses back to exactly that offset. -/
lemma parseZone_zonePart (off : Int) (hoff : off ≠ 0) (hdvd : (60 : Int) ∣ off)
    (hbound : off.natAbs < 360000) :
    ParseISOZone (zonePart off) = .ok ⟨zonePart off, off⟩ := by
  have hmag : (60 : Nat) ∣ off.natAbs := by
    simpa using Int.natAbs_dvd_natAbs.mpr hdvd
  unfold zonePart
  rw [if_neg hoff]
  dsimp only
  rw [Nat.div_div_eq_div_mul, show (60 : Nat) * 60 = 3600 from rfl] at *
  set hh := off.natAbs / 3600 with hhdef
  set mm := off.natAbs / 60 % 60 with mmdef
  clear_value hh mm
  have hhb : hh ≤ 99 := by rw [hhdef]; omega
  have hmb : mm ≤ 99 := by rw [mmdef]; omega
  have hsum : hh * 3600 + mm * 60 = off.natAbs := by rw [hhdef, mmdef]; omega
  have hz := zoneLoop_hhmm hh mm hhb hmb
  by_cases hneg : off < 0
  · have e1 : decodeRune (45 :: (pad2 hh ++ 58 :: pad2 mm)) = (45, 1) :=
      decodeRune_cons_ascii _ _ (by omega)
    have e2 : zoneLoop [48 + hh / 10, 48 + hh % 10, 58, 48 + mm / 10, 48 + mm % 10]
        0 0 0 3600 0 = .ok (mm, 2, 60, hh * 3600) := by
      simpa [pad2] using hz
    simp only [if_pos hneg, ParseISOZone, e1]
    norm_num [pad2]
    rw [e2]
    norm_num
    rw [if_neg (show ¬(-((mm : Int) * 60) + -((hh : Int) * 3600) = 0) by omega)]
    simp only [Except.ok.injEq, Loc.mk.injEq, true_and]
    omega
  · have hpos : 0 < off := lt_of_le_of_ne (not_lt.mp hneg) (Ne.symm hoff)
    have e1 : decodeRune (43 :: (pad2 hh ++ 58 :: pad2 mm)) = (43, 1) :=
      decodeRune_cons_ascii _ _ (by omega)
    have e2 : zoneLoop [48 + hh / 10, 48 + hh % 10, 58, 48 + mm / 10, 48 + mm % 10]
        0 0 0 3600 0 = .ok (mm, 2, 60, hh * 3600) := by
      simpa [pad2] using hz
    simp only [if_neg hneg, ParseISOZone, e1]
    norm_num [pad2]
    rw [e2]
    norm_num
    omega

/-- The cons shape of the zone suffix of a nonzero offset. -/
lemma zonePart_cons (off : Int) (hoff : off ≠ 0) :
    zonePart off = (if off < 0 then 45 else 43) ::
      (pad2 (off.natAbs / 60 / 60) ++ 58 :: pad2 (off.natAbs / 60 % 60)) := by
  simp [zonePart, hoff]

/-- Scanning the zone suffix of a nonzero whole-minute offset while
the second is open: the second is stored and the scan stops with the
parsed location. -/
lemma scanGo_zone_stop_second (off : Int) (st : ScanState) (hp : st.p = 5)
    (hoff : off ≠ 0) (hdvd : (60 : Int) ∣ off) (hbound : off.natAbs < 360000) :
    scanGo (zonePart off) st = .ok { st with s := st.c, c := 0, loc := ⟨zonePart off, off⟩ } := by
  have hz := parseZone_zonePart off hoff hdvd hbound
  rw [zonePart_cons off hoff] at hz ⊢
  by_cases hneg : off < 0
  · rw [if_pos hneg] at hz ⊢
    exact scanGo_sign_second 45 _ st _ (Or.inr rfl) hp hz
  · rw [if_neg hneg] at hz ⊢
    exact scanGo_sign_second 43 _ st _ (Or.inl rfl) hp hz

/-- Scanning the zone suffix of a nonzero whole-minute offset while
the fraction is open. -/
lemma scanGo_zone_stop_frac (off : Int) (st : ScanState) (hp : st.p = 6)
    (hoff : off ≠ 0) (hdvd : (60 : Int) ∣ off) (hbound : off.natAbs < 360000) :
    scanGo (zonePart off) st = .ok { st with fraction := st.c, c := 0, loc := ⟨zonePart off, off⟩ } := by
  have hz := parseZone_zonePart off hoff hdvd hbound
  rw [zonePart_cons off hoff] at hz ⊢
  by_cases hneg : off < 0
  · rw [if_pos hneg] at hz ⊢
    exact scanGo_sign_frac 45 _ st _ (Or.inr rfl) hp hz
  · rw [if_neg hneg] at hz ⊢
    exact scanGo_sign_frac 43 _ st _ (Or.inl rfl) hp hz

/-- With an empty accumulator the trailing capture is a no-op. -/
lemma trailingCapture_c0 (st : ScanState) (hc : st.c = 0) : trailingCapture st = st := by
  unfold trailingCapture
  rw [if_neg (by omega)]

/-- Fields within their calendar ranges pass validation. -/
lemma validate_ok (inp : List Nat) (Y M d h m s : Nat)
    (hM1 : 1 ≤ M) (hM2 : M ≤ 12) (hd1 : 1 ≤ d) (hd2 : d ≤ daysIn M Y)
    (hh : h ≤ 23) (hm : m ≤ 59) (hs : s ≤ 59) :
    validate inp Y M d h m s = none := by
  unfold validate
  rw [if_neg (by omega), if_neg (by omega), if_neg (by omega),
      if_neg (by omega), if_neg (by omega)]

/-- The rendered text in head-normal append form. -/
lemma appendRFC3339Nano_eq (t : TimeVal) :
    appendRFC3339Nano t =
      pad4 t.year ++ (45 :: (pad2 t.month ++ (45 :: (pad2 t.day ++ (84 ::
        (pad2 t.hour ++ (58 :: (pad2 t.minute ++ (58 :: (pad2 t.second ++
          (fracPart t.nsec ++ zonePart t.loc.offset))))))))))) := by
  simp [appendRFC3339Nano]

/-- Literal-state form of the `-` step at the year. -/
lemma scanGo_dash_year' (rest : List Nat) (Y M d h m s f n : Nat) (loc : Loc) (c : Nat) :
    scanGo (45 :: rest) ⟨Y, M, d, h, m, s, f, n, loc, c, 0⟩ =
      scanGo rest ⟨c, M, d, h, m, s, f, n, loc, 0, 1⟩ :=
  scanGo_dash_year rest _ rfl

/-- Literal-state form of the `-` step at the month. -/
lemma scanGo_dash_month' (rest : List Nat) (Y M d h m s f n : Nat) (loc : Loc) (c : Nat) :
    scanGo (45 :: rest) ⟨Y, M, d, h, m, s, f, n, loc, c, 1⟩ =
      scanGo rest ⟨Y, c, d, h, m, s, f, n, loc, 0, 2⟩ :=
  scanGo_dash_month rest _ rfl

/-- Literal-state form of the `T` step. -/
lemma scanGo_T' (rest : List Nat) (Y M d h m s f n : Nat) (loc : Loc) (c : Nat) :
    scanGo (84 :: rest) ⟨Y, M, d, h, m, s, f, n, loc, c, 2⟩ =
      scanGo rest ⟨Y, M, c, h, m, s, f, n, loc, 0, 3⟩ :=
  scanGo_T rest _ rfl

/-- Literal-state form of the `:` step at the hour. -/
lemma scanGo_colon_hour' (rest : List Nat) (Y M d h m s f n : Nat) (loc : Loc) (c : Nat) :
    scanGo (58 :: rest) ⟨Y, M, d, h, m, s, f, n, loc, c, 3⟩ =
      scanGo rest ⟨Y, M, d, c, m, s, f, n, loc, 0, 4⟩ :=
  scanGo_colon_hour rest _ rfl

/-- Literal-state form of the `:` step at the minute. -/
lemma scanGo_colon_minute' (rest : List Nat) (Y M d h m s f n : Nat) (loc : Loc) (c : Nat) :
    scanGo (58 :: rest) ⟨Y, M, d, h, m, s, f, n, loc, c, 4⟩ =
      scanGo rest ⟨Y, M, d, h, c, s, f, n, loc, 0, 5⟩ :=
  scanGo_colon_minute rest _ rfl

/-- Literal-state form of the `.` step. -/
lemma scanGo_dot' (rest : List Nat) (Y M d h m s f n : Nat) (loc : Loc) (c : Nat) :
    scanGo (46 :: rest) ⟨Y, M, d, h, m, s, f, n, loc, c, 5⟩ =
      scanGo rest ⟨Y, M, d, h, m, c, f, n, loc, 0, 6⟩ :=
  scanGo_dot rest _ rfl

/-- Literal-state form of the final `Z` at the second. -/
lemma scanGo_Z_second' (Y M d h m s f n : Nat) (loc : Loc) (c : Nat) :
    scanGo [90] ⟨Y, M, d, h, m, s, f, n, loc, c, 5⟩ =
      .ok ⟨Y, M, d, h, m, c, f, n, loc, 0, 5⟩ :=
  scanGo_Z_second _ rfl

/-- Literal-state form of the final `Z` at the fraction. -/
lemma scanGo_Z_frac' (Y M d h m s f n : Nat) (loc : Loc) (c : Nat) :
    scanGo [90] ⟨Y, M, d, h, m, s, f, n, loc, c, 6⟩ =
      .ok ⟨Y, M, d, h, m, s, c, n, loc, 0, 6⟩ :=
  scanGo_Z_frac _ rfl

/-- C9: for every instant whose calendar fields are within domain
bounds (year in `[0,9999]`, month/day/hour/minute/second in calendar
range, nanoseconds under one second) and whose zone offset is a whole
number of minutes below 100 hours in magnitude, decoding the
full-precision (`RFC3339Nano`) encoding reproduces every field
exactly: year, month, day, hour, minute, second, nanosecond fraction
and zone offset. -/
theorem c9_round_trip (t : TimeVal)
    (hY : t.year ≤ 9999) (hM1 : 1 ≤ t.month) (hM2 : t.month ≤ 12)
    (hd1 : 1 ≤ t.day) (hd2 : t.day ≤ daysIn t.month t.year)
    (hhr : t.hour ≤ 23) (hmin : t.minute ≤ 59) (hsec : t.second ≤ 59)
    (hns : t.nsec < 1000000000)
    (hz1 : (60 : Int) ∣ t.loc.offset) (hz2 : t.loc.offset.natAbs < 360000) :
    ∃ enc, MarshalText t = .ok enc ∧
      ∃ u, Parse enc = .ok u ∧
        u.year = t.year ∧ u.month = t.month ∧ u.day = t.day ∧
        u.hour = t.hour ∧ u.minute = t.minute ∧ u.second = t.second ∧
        u.nsec = t.nsec ∧ u.loc.offset = t.loc.offset := by
  have hdmax : t.day ≤ 31 := by
    have h31 : daysIn t.month t.year ≤ 31 := by
      unfold daysIn
      repeat' split
      all_goals omega
    omega
  have aY : accVal 0 (pad4 t.year) = t.year := accVal_pad4 _ hY
  have aM : accVal 0 (pad2 t.month) = t.month := by rw [accVal_pad2 _ _ (by omega)]; omega
  have aD : accVal 0 (pad2 t.day) = t.day := by rw [accVal_pad2 _ _ (by omega)]; omega
  have aH : accVal 0 (pad2 t.hour) = t.hour := by rw [accVal_pad2 _ _ (by omega)]; omega
  have aMin : accVal 0 (pad2 t.minute) = t.minute := by rw [accVal_pad2 _ _ (by omega)]; omega
  have aS : accVal 0 (pad2 t.second) = t.second := by rw [accVal_pad2 _ _ (by omega)]; omega
  refine ⟨appendRFC3339Nano t, by unfold MarshalText; rw [if_neg (by omega)], ?_⟩
  have s0 : scanGo (appendRFC3339Nano t) initState =
      scanGo (fracPart t.nsec ++ zonePart t.loc.offset)
        ⟨t.year, t.month, t.day, t.hour, t.minute, 0, 0, 1, UTC, t.second, 5⟩ := by
    rw [appendRFC3339Nano_eq]
    rw [scan_digits (pad4 t.year) _ _ (pad4_digits t.year hY), foldl_digitStep]
    norm_num [initState, aY]
    rw [scanGo_dash_year']
    rw [scan_digits (pad2 t.month) _ _ (pad2_digits t.month (by omega)), foldl_digitStep]
    norm_num [aM]
    rw [scanGo_dash_month']
    rw [scan_digits (pad2 t.day) _ _ (pad2_digits t.day (by omega)), foldl_digitStep]
    norm_num [aD]
    rw [scanGo_T']
    rw [scan_digits (pad2 t.hour) _ _ (pad2_digits t.hour (by omega)), foldl_digitStep]
    norm_num [aH]
    rw [scanGo_colon_hour']
    rw [scan_digits (pad2 t.minute) _ _ (pad2_digits t.minute (by omega)), foldl_digitStep]
    norm_num [aMin]
    rw [scanGo_colon_minute']
    rw [scan_digits (pad2 t.second) _ _ (pad2_digits t.second (by omega)), foldl_digitStep]
    norm_num [aS]
  rcases eq_or_ne t.nsec 0 with hn0 | hn0
  · rcases eq_or_ne t.loc.offset 0 with ho0 | ho0
    · -- no fraction, UTC
      have hscan : scanGo (appendRFC3339Nano t) initState =
          .ok ⟨t.year, t.month, t.day, t.hour, t.minute, t.second, 0, 1, UTC, 0, 5⟩ := by
        rw [s0, hn0, ho0]
        rw [show fracPart 0 ++ zonePart 0 = [90] by simp [fracPart, zonePart]]
        exact scanGo_Z_second' ..
      refine ⟨⟨t.year, t.month, t.day, t.hour, t.minute, t.second, 0, UTC⟩, ?_,
        rfl, rfl, rfl, rfl, rfl, rfl, hn0.symm, by rw [ho0]; rfl⟩
      unfold Parse
      rw [hscan]
      dsimp only
      rw [trailingCapture_c0 _ rfl]
      rw [if_neg (by norm_num)]
      rw [validate_ok _ _ _ _ _ _ _ hM1 hM2 hd1 hd2 hhr hmin hsec]
      norm_num
    · -- no fraction, nonzero zone
      have hscan : scanGo (appendRFC3339Nano t) initState =
          .ok ⟨t.year, t.month, t.day, t.hour, t.minute, t.second, 0, 1,
               ⟨zonePart t.loc.offset, t.loc.offset⟩, 0, 5⟩ := by
        rw [s0, hn0]
        rw [show fracPart 0 = ([] : List Nat) by simp [fracPart], List.nil_append]
        exact scanGo_zone_stop_second _ _ rfl ho0 hz1 hz2
      refine ⟨⟨t.year, t.month, t.day, t.hour, t.minute, t.second, 0,
        ⟨zonePart t.loc.offset, t.loc.offset⟩⟩, ?_,
        rfl, rfl, rfl, rfl, rfl, rfl, hn0.symm, rfl⟩
      unfold Parse
      rw [hscan]
      dsimp only
      rw [trailingCapture_c0 _ rfl]
      rw [if_neg (by norm_num)]
      rw [validate_ok _ _ _ _ _ _ _ hM1 hM2 hd1 hd2 hhr hmin hsec]
      norm_num
  · obtain ⟨tz, htz9, hlen, hne, hval, hdig, hvlt⟩ := frac_digits_spec t.nsec hn0 hns
    have hfp : fracPart t.nsec = 46 :: trimZeros (pad9 t.nsec) := by
      simp [fracPart, hn0]
    have hexp : 10 - (1 + (trimZeros (pad9 t.nsec)).length) = tz := by omega
    have s1 : scanGo (fracPart t.nsec ++ zonePart t.loc.offset)
        ⟨t.year, t.month, t.day, t.hour, t.minute, 0, 0, 1, UTC, t.second, 5⟩ =
        scanGo (zonePart t.loc.offset)
          ⟨t.year, t.month, t.day, t.hour, t.minute, t.second, 0,
           1 + (trimZeros (pad9 t.nsec)).length, UTC, accVal 0 (trimZeros (pad9 t.nsec)), 6⟩ := by
      rw [hfp, List.cons_append, scanGo_dot',
          scan_digits (trimZeros (pad9 t.nsec)) _ _ hdig, foldl_digitStep]
      norm_num
    rcases eq_or_ne t.loc.offset 0 with ho0 | ho0
    · have hscan : scanGo (appendRFC3339Nano t) initState =
          .ok ⟨t.year, t.month, t.day, t.hour, t.minute, t.second,
               accVal 0 (trimZeros (pad9 t.nsec)),
               1 + (trimZeros (pad9 t.nsec)).length, UTC, 0, 6⟩ := by
        rw [s0, s1, ho0]
        rw [show zonePart 0 = [90] by simp [zonePart]]
        exact scanGo_Z_frac' ..
      refine ⟨⟨t.year, t.month, t.day, t.hour, t.minute, t.second, t.nsec, UTC⟩, ?_,
        rfl, rfl, rfl, rfl, rfl, rfl, rfl, by rw [ho0]; rfl⟩
      unfold Parse
      rw [hscan]
      dsimp only
      rw [trailingCapture_c0 _ rfl]
      rw [if_neg (by dsimp only; omega)]
      rw [validate_ok _ _ _ _ _ _ _ hM1 hM2 hd1 hd2 hhr hmin hsec]
      dsimp only
      rw [hexp, hval]
    · have hscan : scanGo (appendRFC3339Nano t) initState =
          .ok ⟨t.year, t.month, t.day, t.hour, t.minute, t.second,
               accVal 0 (trimZeros (pad9 t.nsec)),
               1 + (trimZeros (pad9 t.nsec)).length,
               ⟨zonePart t.loc.offset, t.loc.offset⟩, 0, 6⟩ := by
        rw [s0, s1]
        exact scanGo_zone_stop_frac _ _ rfl ho0 hz1 hz2
      refine ⟨⟨t.year, t.month, t.day, t.hour, t.minute, t.second, t.nsec,
        ⟨zonePart t.loc.offset, t.loc.offset⟩⟩, ?_,
        rfl, rfl, rfl, rfl, rfl, rfl, rfl, rfl⟩
      unfold Parse
      rw [hscan]
      dsimp only
      rw [trailingCapture_c0 _ rfl]
      rw [if_neg (by dsimp only; omega)]
      rw [validate_ok _ _ _ _ _ _ _ hM1 hM2 hd1 hd2 hhr hmin hsec]
      dsimp only
      rw [hexp, hval]

/-- C9 witness: the round trip at the instant
2017-04-24T09:41:34.502 at offset +3600 seconds. -/
theorem c9_witness :
    ∃ enc, MarshalText ⟨2017, 4, 24, 9, 41, 34, 502000000, ⟨bytes "x", 3600⟩⟩ = .ok enc ∧
      ∃ u, Parse enc = .ok u ∧
        u.year = 2017 ∧ u.month = 4 ∧ u.day = 24 ∧
        u.hour = 9 ∧ u.minute = 41 ∧ u.second = 34 ∧
        u.nsec = 502000000 ∧ u.loc.offset = 3600 :=
  c9_round_trip ⟨2017, 4, 24, 9, 41, 34, 502000000, ⟨bytes "x", 3600⟩⟩
    (by decide) (by decide) (by decide) (by decide) (by decide)
    (by decide) (by decide) (by decide) (by decide) (by norm_num) (by norm_num)

/-- C7: validation applies in the fixed order month, day, hour, minute,
second with the first failure winning (the code's switch equals the
spec's ordered first-failing-check list), day bounds follow Gregorian
leap rules — `2019-02-29` fails with given 29 and bounds `[1,28]`,
`2020-02-30` with given 30 and bounds `[1,29]` — and every Range error
that `Parse` returns carries the complete original input as its value
(together with element name, offending value and both bounds). -/
theorem c7_validation_order (inp : List Nat) (Y M d h m s : Nat) :
    Parse (bytes "2019-02-29T00:00:00.000+00:00") =
      .error (.range (bytes "2019-02-29T00:00:00.000+00:00") "day" 29 1 28) ∧
    Parse (bytes "2020-02-30T00:00:00.000+00:00") =
      .error (.range (bytes "2020-02-30T00:00:00.000+00:00") "day" 30 1 29) ∧
    validate inp Y M d h m s = validateSpec inp Y M d h m s ∧
    (∀ v el g mn mx, Parse inp = .error (.range v el g mn mx) → v = inp) := by
  refine ⟨by decide, by decide, ?_, ?_⟩
  · unfold validate validateSpec rangeChecks
    by_cases h1 : M < 1 ∨ M > 12
    · rw [if_pos h1, List.find?_cons_of_pos _ (by simpa using h1)]
      rfl
    · rw [if_neg h1, List.find?_cons_of_neg _ (by simpa using h1)]
      by_cases h2 : d < 1 ∨ d > daysIn M Y
      · rw [if_pos h2, List.find?_cons_of_pos _ (by simpa using h2)]
        rfl
      · rw [if_neg h2, List.find?_cons_of_neg _ (by simpa using h2)]
        by_cases h3 : h > 23
        · rw [if_pos h3, List.find?_cons_of_pos _ (by simpa using h3)]
          rfl
        · rw [if_neg h3, List.find?_cons_of_neg _ (by simpa using h3)]
          by_cases h4 : m > 59
          · rw [if_pos h4, List.find?_cons_of_pos _ (by simpa using h4)]
            rfl
          · rw [if_neg h4, List.find?_cons_of_neg _ (by simpa using h4)]
            by_cases h5 : s > 59
            · rw [if_pos h5, List.find?_cons_of_pos _ (by simpa using h5)]
              rfl
            · rw [if_neg h5, List.find?_cons_of_neg _ (by simpa using h5)]
              rfl
  · intro v el g mn mx hp
    unfold Parse at hp
    split at hp
    · rename_i e heq
      cases hp
      exact absurd heq (scanGo_no_range inp initState v el g mn mx)
    · dsimp only at hp
      split at hp
      · cases hp
      · split at hp
        · rename_i e heq
          cases hp
          exact validate_range_value inp _ _ _ _ _ _ v el g mn mx heq
        · cases hp

/-- C7 witness: the validation laws at concrete field values — a month
of 13 (first check fails) and a second of 60 with everything else in
range (last check fails). -/
theorem c7_witness :
    (Parse (bytes "2019-02-29T00:00:00.000+00:00") =
      .error (.range (bytes "2019-02-29T00:00:00.000+00:00") "day" 29 1 28) ∧
    Parse (bytes "2020-02-30T00:00:00.000+00:00") =
      .error (.range (bytes "2020-02-30T00:00:00.000+00:00") "day" 30 1 29) ∧
    validate (bytes "x") 2017 13 1 0 0 60 = validateSpec (bytes "x") 2017 13 1 0 0 60 ∧
    (∀ v el g mn mx, Parse (bytes "x") = .error (.range v el g mn mx) → v = bytes "x")) ∧
    validate (bytes "x") 2017 13 1 0 0 60 = some (.range (bytes "x") "month" 13 1 12) ∧
    validate (bytes "x") 2017 1 1 0 0 60 = some (.range (bytes "x") "second" 60 0 59) :=
  ⟨c7_validation_order (bytes "x") 2017 13 1 0 0 60, by decide, by decide⟩

/-- C8: a `Z` scanned while one of hour, minute, second or fraction is
open fails with Remaining-Data whenever any byte follows it; as the
final byte it closes the open field (storing the accumulator into it),
clears the accumulator, and leaves the location as it was — in `Parse`
the location is still the initial `time.UTC` at that point, since a
successful zone hand-off ends the scan, so the zone is UTC. -/
theorem c8_z_terminator (st : ScanState)
    (hp : st.p = 3 ∨ st.p = 4 ∨ st.p = 5 ∨ st.p = 6) :
    (∀ rest, rest ≠ [] → scanGo (90 :: rest) st = .error .remainingData) ∧
    (∃ st', scanGo [90] st = .ok st' ∧ st'.loc = st.loc ∧ st'.c = 0 ∧
      st'.Y = st.Y ∧ st'.M = st.M ∧ st'.d = st.d ∧
      (st.p = 3 → st'.h = st.c) ∧ (st.p = 4 → st'.m = st.c) ∧
      (st.p = 5 → st'.s = st.c) ∧ (st.p = 6 → st'.fraction = st.c)) := by
  constructor
  · intro rest hrest
    rcases hp with hp | hp | hp | hp <;> simp [scanGo, isDigitB, hp, hrest]
  · rcases hp with hp | hp | hp | hp
    · refine ⟨{ st with h := st.c, c := 0 }, by simp [scanGo, isDigitB, hp], by simp, by simp,
        by simp, by simp, by simp, fun _ => by simp, fun h4 => by omega,
        fun h5 => by omega, fun h6 => by omega⟩
    · refine ⟨{ st with m := st.c, c := 0 }, by simp [scanGo, isDigitB, hp], by simp, by simp,
        by simp, by simp, by simp, fun h3 => by omega, fun _ => by simp,
        fun h5 => by omega, fun h6 => by omega⟩
    · refine ⟨{ st with s := st.c, c := 0 }, by simp [scanGo, isDigitB, hp], by simp, by simp,
        by simp, by simp, by simp, fun h3 => by omega, fun h4 => by omega,
        fun _ => by simp, fun h6 => by omega⟩
    · refine ⟨{ st with fraction := st.c, c := 0 }, by simp [scanGo, isDigitB, hp], by simp, by simp,
        by simp, by simp, by simp, fun h3 => by omega, fun h4 => by omega,
        fun h5 => by omega, fun _ => by simp⟩

/-- C8 witness: the law applied at a concrete state with the cursor at
the second field and accumulator 7. -/
theorem c8_witness :
    (∀ rest, rest ≠ [] →
      scanGo (90 :: rest) { initState with p := 5, c := 7 } = .error .remainingData) ∧
    (∃ st', scanGo [90] { initState with p := 5, c := 7 } = .ok st' ∧
      st'.loc = ({ initState with p := 5, c := 7 } : ScanState).loc ∧ st'.c = 0 ∧
      st'.Y = ({ initState with p := 5, c := 7 } : ScanState).Y ∧
      st'.M = ({ initState with p := 5, c := 7 } : ScanState).M ∧
      st'.d = ({ initState with p := 5, c := 7 } : ScanState).d ∧
      (({ initState with p := 5, c := 7 } : ScanState).p = 3 → st'.h = 7) ∧
      (({ initState with p := 5, c := 7 } : ScanState).p = 4 → st'.m = 7) ∧
      (({ initState with p := 5, c := 7 } : ScanState).p = 5 → st'.s = 7) ∧
      (({ initState with p := 5, c := 7 } : ScanState).p = 6 → st'.fraction = 7)) :=
  c8_z_terminator { initState with p := 5, c := 7 } (by decide)

/-- C10: the claim states that the JSON decode entry point returns
success or an error on every byte payload, including the 1-byte payload
consisting of a single quote character, and that the quote-stripping
slice stays within bounds.  On the payload `"` (one byte 34), the
quote test passes (the byte is both first and last), and the Go slice
expression `b[1 : len(b)-1] = b[1:0]` has its lower bound above its
upper bound: the code panics. -/
theorem c10_single_quote_panics :
    UnmarshalJSON [34] = .panics := by decide

end Iso8601
